import Mathlib

/-!
Verification of the Tic-Tac-Toe game engine (the `Game` class of the
front-end client). The engine is embedded shallowly: the board is a list
of rows of optional player markers, coordinates are integers (as in the
JavaScript runtime), and the mutating method `play` becomes a pure
function returning the outcome together with the successor state.
DOM-rendering calls (`renderBoard`, the visual part of `showWinner`) do
not touch the quadruple (board, currentPlayer, turnCount, playHistory)
and are omitted; the timer logic of `showWinner` is modelled separately
in the `Banner` namespace.
-/

/-- A player marker: `"X"` or `"O"` in the source. -/
inductive Player where
  | X
  | O
deriving DecidableEq, Repr

/-- String form of a player, used to build the win message. -/
def Player.name : Player → String
  | .X => "X"
  | .O => "O"

/-- A board cell: a player marker or empty (`null` in the source). -/
abbrev Cell := Option Player

/-- The board: an array of rows of cells. -/
abbrev Board := List (List Cell)

/-- One record of the play history: `{player, row, col, turn}`. -/
structure PlayHistory where
  player : Player
  row : Int
  col : Int
  turn : Nat
deriving DecidableEq, Repr

/-- The engine state: the mutable fields of the `Game` class that the
game logic reads and writes (the rendering handle and the banner timer
id are modelled separately). -/
structure Game where
  board : Board
  currentPlayer : Player
  turnCount : Nat
  playHistory : List PlayHistory
deriving DecidableEq, Repr

/-- Read of `this.board[r]`, as performed by the source after (or under) a bounds
check; out of range it yields the empty row, which no guarded call site
can observe. -/
def rowAt (b : Board) (r : Int) : List Cell :=
  if 0 ≤ r then b.getD r.toNat [] else []

/-- Read of `row[c]` for a row of cells: `undefined` out of range is modelled
as `none`, matching the source's `=== player` / `!== null` tests. -/
def cellIdx (l : List Cell) (c : Int) : Cell :=
  if 0 ≤ c then l.getD c.toNat none else none

/-- Read of `this.board[r][c]`. -/
def cellAt (b : Board) (r c : Int) : Cell :=
  cellIdx (rowAt b r) c

/-- Assignment `this.board[r][c] = v`: every assignment in the source runs under an
in-bounds guard, so the model updates only at valid indices. -/
def setCell (b : Board) (r c : Int) (v : Cell) : Board :=
  if 0 ≤ r ∧ 0 ≤ c then b.set r.toNat ((b.getD r.toNat []).set c.toNat v) else b

/-- Source `Game.isValidCell`: `row >= 0 && row < board.length && col >= 0 &&
col < board[row].length`. -/
def isValidCell (b : Board) (row col : Int) : Bool :=
  0 ≤ row && row < (b.length : Int) && 0 ≤ col && col < ((rowAt b row).length : Int)

/-- The board literal assigned by `Game.setupBoard`. -/
def emptyBoard : Board :=
  [[none, none, none], [none, none, none], [none, none, none]]

/-- Source `Game.setupBoard`: reset board, current player, turn count and
history. -/
def setupBoard (g : Game) : Game :=
  { g with board := emptyBoard, currentPlayer := .X, turnCount := 0, playHistory := [] }

/-- The state built by the constructor (field initialisation followed by
`init`, whose `setupBoard` overwrites every field; `renderBoard` does
not touch them). -/
def initGame : Game :=
  { board := emptyBoard, currentPlayer := .X, turnCount := 0, playHistory := [] }

/-- The in-bounds test that `clearOldTurnsFromPlayHistory` and
`updateBoardWithPlay` apply to a history entry. -/
def entryInBounds (b : Board) (e : PlayHistory) : Bool :=
  0 ≤ e.row && e.row < (b.length : Int) && 0 ≤ e.col && e.col < ((rowAt b e.row).length : Int)

/-- The age test of `clearOldTurnsFromPlayHistory`:
`turnCount - play.turn >= 6` (JavaScript subtraction, hence signed). -/
def isExpired (tc : Nat) (e : PlayHistory) : Bool :=
  6 ≤ (tc : Int) - (e.turn : Int)

/-- The body of `clearOldTurnsFromPlayHistory`: the source filters the
history while mutating the board inside the filter callback, so the
model threads the board through the traversal. Out-of-bounds entries
are dropped with no board change; expired entries are dropped and their
cell cleared; the rest are kept. -/
def clearAux (tc : Nat) : Board → List PlayHistory → Board × List PlayHistory
  | b, [] => (b, [])
  | b, e :: rest =>
    if ¬ entryInBounds b e then
      clearAux tc b rest
    else if isExpired tc e then
      clearAux tc (setCell b e.row e.col none) rest
    else
      ((clearAux tc b rest).1, e :: (clearAux tc b rest).2)

/-- Source `Game.clearOldTurnsFromPlayHistory`. -/
def clearOldTurnsFromPlayHistory (g : Game) : Game :=
  { g with
    board := (clearAux g.turnCount g.board g.playHistory).1,
    playHistory := (clearAux g.turnCount g.board g.playHistory).2 }

/-- Source `Game.updateBoardWithPlay`: re-assert an entry's marker on the board
when its coordinates are in bounds. -/
def updateBoardWithPlay (g : Game) (e : PlayHistory) : Game :=
  if entryInBounds g.board e then
    { g with board := setCell g.board e.row e.col (some e.player) }
  else g

/-- Source `Game.updateBoard`: expire old entries, then re-apply the last
remaining history entry, if any. -/
def updateBoard (g : Game) : Game :=
  match (clearOldTurnsFromPlayHistory g).playHistory.getLast? with
  | some e => updateBoardWithPlay (clearOldTurnsFromPlayHistory g) e
  | none => clearOldTurnsFromPlayHistory g

/-- Source `Game.checkWin`: the just-played cell's marker, tested along its
row, its column, and each diagonal the cell lies on. -/
def checkWin (g : Game) (row col : Int) : Bool :=
  match cellAt g.board row col with
  | none => false
  | some player =>
    (rowAt g.board row).all (fun cell => cell == some player)
    || g.board.all (fun r => cellIdx r col == some player)
    || (row == col && (g.board.enum.all fun p => cellIdx p.2 (p.1 : Int) == some player))
    || (row + col == (g.board.length : Int) - 1 &&
        (g.board.enum.all fun p =>
          cellIdx p.2 ((g.board.length : Int) - 1 - (p.1 : Int)) == some player))

/-- The two failure kinds of `play` (the spec's `InvalidCellError` and
`CellTakenError`). -/
inductive GameError where
  | invalidCell
  | cellTaken
deriving DecidableEq, Repr

/-- The message carried by each thrown error in the source. -/
def GameError.message : GameError → String
  | .invalidCell => "Invalid move. Please select a valid cell."
  | .cellTaken => "Cell already taken. Choose another one."

/-- The state of the engine just after `play` has placed the marker,
pushed the history record and incremented the turn counter — before
`updateBoard` runs. -/
def afterMove (g : Game) (row col : Int) : Game :=
  { g with
    board := setCell g.board row col (some g.currentPlayer),
    playHistory := g.playHistory ++ [⟨g.currentPlayer, row, col, g.turnCount⟩],
    turnCount := g.turnCount + 1 }

/-- Source `Game.play`: validate, place, record, expire, check for a win; on a
win reset the whole state and return the message, otherwise toggle the
player and return nothing. A thrown error leaves the state untouched
(both checks precede every assignment in the source). -/
def play (g : Game) (row col : Int) : Except GameError (Option String) × Game :=
  if ¬ isValidCell g.board row col then
    (.error .invalidCell, g)
  else if cellAt g.board row col ≠ none then
    (.error .cellTaken, g)
  else
    let g2 := updateBoard (afterMove g row col)
    if checkWin g2 row col then
      (.ok (some (g.currentPlayer.name ++ " wins!")), setupBoard g2)
    else
      (.ok none, { g2 with currentPlayer := if g2.currentPlayer = .X then .O else .X })

/-- The states an engine can be in: the constructor's state and
everything a sequence of `play` calls (accepted or failed) can reach. -/
inductive Reachable : Game → Prop where
  | init : Reachable initGame
  | step (g : Game) (row col : Int) : Reachable g → Reachable (play g row col).2

/-- Number of occupied cells of a board. -/
def countOccupied (b : Board) : Nat :=
  (b.map fun row => row.countP fun c => c.isSome).sum

/-- In-bounds coordinates for the 3×3 board. -/
def inBounds3 (r c : Int) : Prop :=
  0 ≤ r ∧ r < 3 ∧ 0 ≤ c ∧ c < 3

instance : DecidablePred fun p : Int × Int => inBounds3 p.1 p.2 := by
  intro p; unfold inBounds3; infer_instance

/-- The history entries recorded at a given cell. -/
def entriesAt (g : Game) (r c : Int) : List PlayHistory :=
  g.playHistory.filter fun e => e.row == r && e.col == c

/-! ### Board well-formedness and cell access -/

/-- The board shape established by `setupBoard` and preserved by every
mutation: three rows of three cells. -/
def wfBoard (b : Board) : Prop :=
  b.length = 3 ∧ ∀ row ∈ b, row.length = 3

/-- The spec's description of a completed line through (`row`, `col`):
the full row, the full column, the main diagonal when `row = col`, or
the anti-diagonal when `row + col = 2`, all holding the given player. -/
def lineWinP (b : Board) (p : Player) (row col : Int) : Prop :=
  (cellAt b row 0 = some p ∧ cellAt b row 1 = some p ∧ cellAt b row 2 = some p)
  ∨ (cellAt b 0 col = some p ∧ cellAt b 1 col = some p ∧ cellAt b 2 col = some p)
  ∨ (row = col ∧ cellAt b 0 0 = some p ∧ cellAt b 1 1 = some p ∧ cellAt b 2 2 = some p)
  ∨ (row + col = 2 ∧ cellAt b 0 2 = some p ∧ cellAt b 1 1 = some p ∧ cellAt b 2 0 = some p)

theorem wfBoard_emptyBoard : wfBoard emptyBoard := by
  constructor <;> simp [emptyBoard]

theorem wfBoard_destruct (b : Board) (h : wfBoard b) :
    ∃ c00 c01 c02 c10 c11 c12 c20 c21 c22 : Cell,
      b = [[c00, c01, c02], [c10, c11, c12], [c20, c21, c22]] := by
  obtain ⟨hlen, hrows⟩ := h
  match b, hlen with
  | [r0, r1, r2], _ =>
    have h0 := hrows r0 (by simp)
    have h1 := hrows r1 (by simp)
    have h2 := hrows r2 (by simp)
    match r0, h0, r1, h1, r2, h2 with
    | [a, b, c], _, [d, e, f], _, [g, h, i], _ =>
      exact ⟨a, b, c, d, e, f, g, h, i, rfl⟩

theorem int_lt3_cases {r : Int} (h0 : 0 ≤ r) (h3 : r < 3) : r = 0 ∨ r = 1 ∨ r = 2 := by
  omega

theorem rowAt_of_lt (b : Board) (r : Int) (h0 : 0 ≤ r) (hlt : r.toNat < b.length) :
    rowAt b r = b[r.toNat] := by
  unfold rowAt
  rw [if_pos h0, List.getD_eq_getElem?_getD, List.getElem?_eq_getElem hlt]
  rfl

theorem cellIdx_of_lt (l : List Cell) (c : Int) (h0 : 0 ≤ c) (hlt : c.toNat < l.length) :
    cellIdx l c = l[c.toNat] := by
  unfold cellIdx
  rw [if_pos h0, List.getD_eq_getElem?_getD, List.getElem?_eq_getElem hlt]
  rfl

theorem rowAt_mem (b : Board) (r : Int) (h0 : 0 ≤ r) (hlt : r.toNat < b.length) :
    rowAt b r ∈ b := by
  rw [rowAt_of_lt b r h0 hlt]
  exact List.getElem_mem hlt

theorem isValidCell_iff (b : Board) (hwf : wfBoard b) (row col : Int) :
    isValidCell b row col = true ↔ inBounds3 row col := by
  have hb3 := hwf.1
  unfold isValidCell inBounds3
  simp only [Bool.and_eq_true, decide_eq_true_eq]
  constructor
  · rintro ⟨⟨⟨h1, h2⟩, h3⟩, h4⟩
    have hrl : (rowAt b row).length = 3 :=
      hwf.2 _ (rowAt_mem b row h1 (by omega))
    refine ⟨h1, by omega, h3, by omega⟩
  · rintro ⟨h1, h2, h3, h4⟩
    have hrl : (rowAt b row).length = 3 :=
      hwf.2 _ (rowAt_mem b row h1 (by omega))
    refine ⟨⟨⟨h1, by omega⟩, h3⟩, by omega⟩

theorem entryInBounds_eq (b : Board) (e : PlayHistory) :
    entryInBounds b e = isValidCell b e.row e.col := rfl

theorem length_setCell (b : Board) (r c : Int) (v : Cell) :
    (setCell b r c v).length = b.length := by
  unfold setCell
  split <;> simp

theorem wfBoard_setCell (b : Board) (r c : Int) (v : Cell) (h : wfBoard b) :
    wfBoard (setCell b r c v) := by
  unfold setCell
  split
  · by_cases hlt : r.toNat < b.length
    · refine ⟨by simpa using h.1, ?_⟩
      intro row hrow
      rcases List.mem_or_eq_of_mem_set hrow with hm | hm
      · exact h.2 row hm
      · subst hm
        rw [List.length_set, List.getD_eq_getElem?_getD, List.getElem?_eq_getElem hlt]
        exact h.2 _ (List.getElem_mem hlt)
    · rw [List.set_eq_of_length_le (by omega)]
      exact h
  · exact h

theorem cellAt_setCell_self (b : Board) (r c : Int) (v : Cell) (hwf : wfBoard b)
    (hin : inBounds3 r c) : cellAt (setCell b r c v) r c = v := by
  obtain ⟨c00, c01, c02, c10, c11, c12, c20, c21, c22, hb⟩ := wfBoard_destruct b hwf
  subst hb
  obtain ⟨h1, h2, h3, h4⟩ := hin
  rcases int_lt3_cases h1 h2 with hr | hr | hr <;>
    rcases int_lt3_cases h3 h4 with hc | hc | hc <;>
      subst hr hc <;> rfl

theorem getD2_set (b : Board) (rn cn rn' cn' : Nat) (v : Cell)
    (hne : ¬(rn' = rn ∧ cn' = cn)) :
    ((b.set rn ((b.getD rn []).set cn v)).getD rn' []).getD cn' none
      = (b.getD rn' []).getD cn' none := by
  by_cases hr : rn = rn'
  · subst hr
    have hc : cn ≠ cn' := fun h => hne ⟨rfl, h.symm⟩
    by_cases hlt : rn < b.length
    · rw [List.getD_eq_getElem?_getD (b.set _ _), List.getD_eq_getElem?_getD b,
        List.getElem?_set, if_pos rfl, if_pos hlt, List.getElem?_eq_getElem hlt]
      simp only [Option.getD_some]
      rw [List.getD_eq_getElem?_getD, List.getD_eq_getElem?_getD,
        List.getElem?_set_ne hc]
    · rw [List.set_eq_of_length_le (by omega)]
  · rw [List.getD_eq_getElem?_getD (b.set _ _), List.getD_eq_getElem?_getD b,
      List.getElem?_set_ne hr, List.getD_eq_getElem?_getD b]

theorem cellAt_setCell_ne (b : Board) (r c r' c' : Int) (v : Cell)
    (h0r : 0 ≤ r) (h0c : 0 ≤ c) (hne : ¬(r' = r ∧ c' = c)) :
    cellAt (setCell b r c v) r' c' = cellAt b r' c' := by
  by_cases h0r' : 0 ≤ r'
  · by_cases h0c' : 0 ≤ c'
    · unfold setCell cellAt rowAt cellIdx
      rw [if_pos (show (0 : Int) ≤ r ∧ (0 : Int) ≤ c from ⟨h0r, h0c⟩),
        if_pos h0c', if_pos h0c', if_pos h0r', if_pos h0r']
      apply getD2_set
      rintro ⟨hh1, hh2⟩
      exact hne ⟨by omega, by omega⟩
    · unfold cellAt cellIdx
      rw [if_neg h0c', if_neg h0c']
  · unfold cellAt rowAt
    rw [if_neg h0r', if_neg h0r']

/-! ### The expiry pass -/

theorem isExpired_iff (tc : Nat) (e : PlayHistory) :
    isExpired tc e = true ↔ e.turn + 6 ≤ tc := by
  unfold isExpired
  simp only [decide_eq_true_eq]
  omega

/-- A history entry matched by the clearing pass at coordinates
(`r`, `c`): expired and recorded at that cell. -/
def clearsCell (tc : Nat) (r c : Int) (e : PlayHistory) : Bool :=
  isExpired tc e && e.row == r && e.col == c

theorem clearAux_spec (tc : Nat) (h : List PlayHistory) :
    ∀ b : Board, wfBoard b → (∀ e ∈ h, inBounds3 e.row e.col) →
      (clearAux tc b h).2 = h.filter (fun e => !(isExpired tc e))
      ∧ wfBoard (clearAux tc b h).1
      ∧ ∀ r c : Int, cellAt (clearAux tc b h).1 r c =
          if h.any (clearsCell tc r c) then none else cellAt b r c := by
  induction h with
  | nil =>
    intro b hwf _
    refine ⟨rfl, hwf, ?_⟩
    intro r c
    simp [clearAux]
  | cons e rest ih =>
    intro b hwf hin
    have hein : inBounds3 e.row e.col := hin e (List.mem_cons_self _ _)
    have heb : entryInBounds b e = true := by
      rw [entryInBounds_eq, isValidCell_iff b hwf]
      exact hein
    by_cases hexp : isExpired tc e = true
    · have hstep : clearAux tc b (e :: rest) = clearAux tc (setCell b e.row e.col none) rest := by
        show (if ¬ entryInBounds b e then clearAux tc b rest
              else if isExpired tc e then clearAux tc (setCell b e.row e.col none) rest
              else ((clearAux tc b rest).1, e :: (clearAux tc b rest).2)) = _
        rw [if_neg (by simp [heb]), if_pos hexp]
      have hwf2 : wfBoard (setCell b e.row e.col none) := wfBoard_setCell _ _ _ _ hwf
      obtain ⟨ih1, ih2, ih3⟩ := ih (setCell b e.row e.col none) hwf2
        (fun e' he' => hin e' (List.mem_cons_of_mem _ he'))
      rw [hstep]
      refine ⟨?_, ih2, ?_⟩
      · rw [ih1, List.filter_cons_of_neg (by simp [hexp])]
      · intro r c
        rw [ih3 r c]
        by_cases hany : rest.any (clearsCell tc r c) = true
        · rw [if_pos hany, if_pos (by simp [List.any_cons, hany])]
        · rw [if_neg hany]
          by_cases hec : e.row = r ∧ e.col = c
          · have : (e :: rest).any (clearsCell tc r c) = true := by
              simp [List.any_cons, clearsCell, hexp, hec.1, hec.2]
            rw [if_pos this]
            obtain ⟨h1, h2⟩ := hec
            subst h1 h2
            exact cellAt_setCell_self b _ _ none hwf hein
          · have : (e :: rest).any (clearsCell tc r c) = false := by
              have hany2 : rest.any (clearsCell tc r c) = false := by
                simpa using hany
              rw [List.any_cons, hany2, Bool.or_false]
              unfold clearsCell
              rcases Decidable.not_and_iff_or_not.mp hec with hh | hh
              · have hb : (e.row == r) = false := by simpa using hh
                rw [hb, Bool.and_false, Bool.false_and]
              · have hb : (e.col == c) = false := by simpa using hh
                rw [hb, Bool.and_false]
            rw [if_neg (by simp [this])]
            exact cellAt_setCell_ne b e.row e.col r c none hein.1 hein.2.2.1
              (fun hh => hec ⟨hh.1.symm, hh.2.symm⟩)
    · have hstep : clearAux tc b (e :: rest) =
          ((clearAux tc b rest).1, e :: (clearAux tc b rest).2) := by
        show (if ¬ entryInBounds b e then clearAux tc b rest
              else if isExpired tc e then clearAux tc (setCell b e.row e.col none) rest
              else ((clearAux tc b rest).1, e :: (clearAux tc b rest).2)) = _
        rw [if_neg (by simp [heb]), if_neg hexp]
      obtain ⟨ih1, ih2, ih3⟩ := ih b hwf (fun e' he' => hin e' (List.mem_cons_of_mem _ he'))
      rw [hstep]
      refine ⟨?_, ih2, ?_⟩
      · simp only [ih1]
        rw [List.filter_cons_of_pos (by simp [hexp])]
      · intro r c
        rw [ih3 r c]
        have : (e :: rest).any (clearsCell tc r c) = rest.any (clearsCell tc r c) := by
          simp [List.any_cons, clearsCell, hexp]
        rw [this]

/-! ### The engine invariant -/

/-- The state invariant maintained by construction and by every `play`
call: the board is 3×3; every history entry is in bounds, matches its
board cell, and sits at a cell distinct from every other entry's; turn
numbers are strictly increasing, all younger than six turns, and of the
parity of the player who made them; every occupied cell is accounted
for by a history entry; and the current player has the parity of the
turn counter. -/
structure GameInv (g : Game) : Prop where
  wf : wfBoard g.board
  entBounds : ∀ e ∈ g.playHistory, inBounds3 e.row e.col
  cellOfEntry : ∀ e ∈ g.playHistory, cellAt g.board e.row e.col = some e.player
  entryOfCell : ∀ r c : Int, inBounds3 r c → ∀ p : Player, cellAt g.board r c = some p →
    ∃ e ∈ g.playHistory, e.row = r ∧ e.col = c ∧ e.player = p
  distinctCells : g.playHistory.Pairwise fun a b => ¬(a.row = b.row ∧ a.col = b.col)
  turnLt : ∀ e ∈ g.playHistory, e.turn < g.turnCount
  turnRecent : ∀ e ∈ g.playHistory, g.turnCount ≤ e.turn + 5
  turnsSorted : g.playHistory.Pairwise fun a b => a.turn < b.turn
  parityCur : g.currentPlayer = Player.X ↔ Even g.turnCount
  parityEnt : ∀ e ∈ g.playHistory, (e.player = Player.X ↔ Even e.turn)

theorem getD2_emptyBoard (n m : Nat) : (emptyBoard.getD n []).getD m none = none := by
  unfold emptyBoard
  rcases n with _ | _ | _ | n <;> rcases m with _ | _ | _ | m <;>
    simp [List.getD, List.getElem?_cons_succ]

theorem cellAt_emptyBoard (r c : Int) : cellAt emptyBoard r c = none := by
  unfold cellAt cellIdx rowAt
  by_cases h0r : 0 ≤ r
  · rw [if_pos h0r]
    by_cases h0c : 0 ≤ c
    · rw [if_pos h0c]
      exact getD2_emptyBoard r.toNat c.toNat
    · rw [if_neg h0c]
  · rw [if_neg h0r]
    by_cases h0c : 0 ≤ c
    · rw [if_pos h0c]
      rcases c.toNat with _ | m <;> rfl
    · rw [if_neg h0c]

theorem GameInv_initGame : GameInv initGame := by
  refine ⟨wfBoard_emptyBoard, ?_, ?_, ?_, ?_, ?_, ?_, ?_, ?_, ?_⟩ <;>
    simp [initGame, cellAt_emptyBoard]

theorem GameInv_setupBoard (g : Game) : GameInv (setupBoard g) :=
  GameInv_initGame

/-- The record pushed by an accepted move. -/
def newEntry (g : Game) (row col : Int) : PlayHistory :=
  ⟨g.currentPlayer, row, col, g.turnCount⟩

theorem isExpired_newEntry (g : Game) (row col : Int) :
    isExpired (g.turnCount + 1) (newEntry g row col) = false := by
  unfold isExpired newEntry
  simp only [decide_eq_false_iff_not]
  omega

/-- Shape of the engine state after the in-call `updateBoard` on an
accepted move: the player and incremented counter are untouched, the
history is the surviving old entries followed by the new record, the
played cell carries the mover's marker, and every other cell is either
cleared (when an expired entry sat there) or unchanged. -/
theorem updateBoard_afterMove_shape (g : Game) (row col : Int)
    (hwf : wfBoard g.board) (hent : ∀ e ∈ g.playHistory, inBounds3 e.row e.col)
    (hvalid : inBounds3 row col) :
    (updateBoard (afterMove g row col)).currentPlayer = g.currentPlayer
    ∧ (updateBoard (afterMove g row col)).turnCount = g.turnCount + 1
    ∧ (updateBoard (afterMove g row col)).playHistory =
        g.playHistory.filter (fun e => !(isExpired (g.turnCount + 1) e)) ++ [newEntry g row col]
    ∧ wfBoard (updateBoard (afterMove g row col)).board
    ∧ cellAt (updateBoard (afterMove g row col)).board row col = some g.currentPlayer
    ∧ ∀ r c : Int, ¬(r = row ∧ c = col) →
        cellAt (updateBoard (afterMove g row col)).board r c =
          if g.playHistory.any (clearsCell (g.turnCount + 1) r c) then none
          else cellAt g.board r c := by
  set tc1 := g.turnCount + 1 with htc1
  have hwf1 : wfBoard (afterMove g row col).board := wfBoard_setCell _ _ _ _ hwf
  have hent1 : ∀ e ∈ (afterMove g row col).playHistory, inBounds3 e.row e.col := by
    intro e he
    rcases List.mem_append.mp he with hm | hm
    · exact hent e hm
    · rcases List.mem_singleton.mp hm with rfl
      exact hvalid
  have htcam : (afterMove g row col).turnCount = tc1 := rfl
  obtain ⟨hc1, hc2, hc3⟩ := clearAux_spec tc1 (afterMove g row col).playHistory
    (afterMove g row col).board hwf1 hent1
  have hfilter : (afterMove g row col).playHistory.filter (fun e => !(isExpired tc1 e)) =
      g.playHistory.filter (fun e => !(isExpired tc1 e)) ++ [newEntry g row col] := by
    show ((g.playHistory ++ [newEntry g row col]).filter fun e => !(isExpired tc1 e)) = _
    rw [List.filter_append]
    congr 1
    simp [isExpired_newEntry g row col]
  have hclear : clearOldTurnsFromPlayHistory (afterMove g row col) =
      { afterMove g row col with
        board := (clearAux tc1 (afterMove g row col).board (afterMove g row col).playHistory).1,
        playHistory := g.playHistory.filter (fun e => !(isExpired tc1 e)) ++ [newEntry g row col] } := by
    unfold clearOldTurnsFromPlayHistory
    rw [show (afterMove g row col).turnCount = tc1 from rfl]
    rw [hc1, hfilter]
    rfl
  have hlast : (clearOldTurnsFromPlayHistory (afterMove g row col)).playHistory.getLast? =
      some (newEntry g row col) := by
    rw [hclear]
    exact List.getLast?_concat _
  have hub : updateBoard (afterMove g row col) =
      updateBoardWithPlay (clearOldTurnsFromPlayHistory (afterMove g row col)) (newEntry g row col) := by
    unfold updateBoard
    rw [hlast]
  have hinb : entryInBounds (clearOldTurnsFromPlayHistory (afterMove g row col)).board
      (newEntry g row col) = true := by
    rw [entryInBounds_eq, isValidCell_iff _ (by rw [hclear]; exact hc2)]
    exact hvalid
  have hupd : updateBoard (afterMove g row col) =
      { clearOldTurnsFromPlayHistory (afterMove g row col) with
        board := setCell (clearOldTurnsFromPlayHistory (afterMove g row col)).board
          row col (some g.currentPlayer) } := by
    rw [hub]
    unfold updateBoardWithPlay
    rw [if_pos hinb]
    rfl
  rw [hupd]
  have hbclear : (clearOldTurnsFromPlayHistory (afterMove g row col)).board =
      (clearAux tc1 (afterMove g row col).board (afterMove g row col).playHistory).1 := by
    rw [hclear]
  refine ⟨by rw [hclear]; rfl, by rw [hclear]; rfl, by rw [hclear], ?_, ?_, ?_⟩
  · exact wfBoard_setCell _ _ _ _ (by rw [hbclear]; exact hc2)
  · exact cellAt_setCell_self _ _ _ _ (by rw [hbclear]; exact hc2) hvalid
  · intro r c hne
    rw [cellAt_setCell_ne _ row col r c _ hvalid.1 hvalid.2.2.1 hne]
    rw [hbclear, hc3 r c]
    have hanyeq : (afterMove g row col).playHistory.any (clearsCell tc1 r c) =
        g.playHistory.any (clearsCell tc1 r c) := by
      show ((g.playHistory ++ [newEntry g row col]).any (clearsCell tc1 r c)) = _
      rw [List.any_append]
      have : clearsCell tc1 r c (newEntry g row col) = false := by
        unfold clearsCell
        rw [isExpired_newEntry g row col, Bool.false_and, Bool.false_and]
      simp [this]
    rw [hanyeq]
    by_cases hany : g.playHistory.any (clearsCell tc1 r c) = true
    · rw [if_pos hany, if_pos hany]
    · rw [if_neg hany, if_neg hany]
      exact cellAt_setCell_ne _ row col r c _ hvalid.1 hvalid.2.2.1 hne

/-! ### The three paths of `play` -/

theorem play_invalid (g : Game) (row col : Int)
    (h : isValidCell g.board row col = false) :
    play g row col = (.error .invalidCell, g) := by
  unfold play
  rw [if_pos (by simp [h])]

theorem play_taken (g : Game) (row col : Int)
    (hv : isValidCell g.board row col = true) (ht : cellAt g.board row col ≠ none) :
    play g row col = (.error .cellTaken, g) := by
  unfold play
  rw [if_neg (by simp [hv]), if_pos ht]

theorem play_accepted (g : Game) (row col : Int)
    (hv : isValidCell g.board row col = true) (he : cellAt g.board row col = none) :
    play g row col =
      (if checkWin (updateBoard (afterMove g row col)) row col then
        (.ok (some (g.currentPlayer.name ++ " wins!")),
          setupBoard (updateBoard (afterMove g row col)))
      else
        (.ok none,
          { updateBoard (afterMove g row col) with
            currentPlayer :=
              if (updateBoard (afterMove g row col)).currentPlayer = .X then .O else .X })) := by
  unfold play
  rw [if_neg (by simp [hv]), if_neg (by simp [he])]

/-! ### Preservation of the invariant -/

theorem distinct_symm :
    Symmetric fun a b : PlayHistory => ¬(a.row = b.row ∧ a.col = b.col) := by
  intro a b hab hba
  exact hab ⟨hba.1.symm, hba.2.symm⟩

/-- No entry of a state satisfying the invariant clears the cell of a
non-expired entry recorded at (`r`, `c`). -/
theorem no_clear_at_live_cell (g : Game) (hI : GameInv g) (e : PlayHistory)
    (he : e ∈ g.playHistory) (hexp : isExpired (g.turnCount + 1) e = false) :
    g.playHistory.any (clearsCell (g.turnCount + 1) e.row e.col) = false := by
  rw [List.any_eq_false]
  intro e' he'
  unfold clearsCell
  by_cases heq : e' = e
  · subst heq
    rw [hexp, Bool.false_and, Bool.false_and]
    simp
  · have hd := List.Pairwise.forall distinct_symm hI.distinctCells he' he heq
    intro hcontra
    simp only [Bool.and_eq_true, beq_iff_eq] at hcontra
    exact hd ⟨hcontra.1.2, hcontra.2⟩

/-- Introduction rule for `GameInv` on an explicitly given state. -/
theorem GameInv.mk' (b : Board) (p : Player) (tc : Nat) (h : List PlayHistory)
    (wf : wfBoard b)
    (entBounds : ∀ e ∈ h, inBounds3 e.row e.col)
    (cellOfEntry : ∀ e ∈ h, cellAt b e.row e.col = some e.player)
    (entryOfCell : ∀ r c : Int, inBounds3 r c → ∀ q : Player, cellAt b r c = some q →
      ∃ e ∈ h, e.row = r ∧ e.col = c ∧ e.player = q)
    (distinctCells : h.Pairwise fun a b => ¬(a.row = b.row ∧ a.col = b.col))
    (turnLt : ∀ e ∈ h, e.turn < tc)
    (turnRecent : ∀ e ∈ h, tc ≤ e.turn + 5)
    (turnsSorted : h.Pairwise fun a b => a.turn < b.turn)
    (parityCur : p = Player.X ↔ Even tc)
    (parityEnt : ∀ e ∈ h, (e.player = Player.X ↔ Even e.turn)) :
    GameInv ⟨b, p, tc, h⟩ :=
  ⟨wf, entBounds, cellOfEntry, entryOfCell, distinctCells, turnLt, turnRecent,
    turnsSorted, parityCur, parityEnt⟩

theorem GameInv_play (g : Game) (row col : Int) (hI : GameInv g) :
    GameInv (play g row col).2 := by
  by_cases hv : isValidCell g.board row col = true
  · by_cases he : cellAt g.board row col = none
    · rw [play_accepted g row col hv he]
      by_cases hw : checkWin (updateBoard (afterMove g row col)) row col = true
      · rw [if_pos hw]
        exact GameInv_setupBoard (updateBoard (afterMove g row col))
      · rw [if_neg hw]
        have hvalid : inBounds3 row col := (isValidCell_iff g.board hI.wf row col).mp hv
        obtain ⟨hs1, hs2, hs3, hs4, hs5, hs6⟩ :=
          updateBoard_afterMove_shape g row col hI.wf hI.entBounds hvalid
        set tc1 := g.turnCount + 1 with htc1
        set g2 := updateBoard (afterMove g row col) with hg2
        have hsurv : ∀ e ∈ g.playHistory.filter (fun e => !(isExpired tc1 e)),
            e ∈ g.playHistory ∧ isExpired tc1 e = false := by
          intro e hme
          obtain ⟨hm, hp⟩ := List.mem_filter.mp hme
          exact ⟨hm, by simpa using hp⟩
        have hnotmove : ∀ e ∈ g.playHistory, ¬(e.row = row ∧ e.col = col) := by
          intro e hme hcontra
          have hce := hI.cellOfEntry e hme
          rw [hcontra.1, hcontra.2, he] at hce
          exact Option.noConfusion hce
        have hcellkeep : ∀ e ∈ g.playHistory.filter (fun e => !(isExpired tc1 e)),
            cellAt g2.board e.row e.col = some e.player := by
          intro e hme
          obtain ⟨hm, hexp⟩ := hsurv e hme
          rw [hs6 e.row e.col (hnotmove e hm)]
          rw [no_clear_at_live_cell g hI e hm hexp]
          rw [if_neg (by simp)]
          exact hI.cellOfEntry e hm
        show GameInv ⟨g2.board, if g2.currentPlayer = .X then .O else .X,
          g2.turnCount, g2.playHistory⟩
        refine GameInv.mk' _ _ _ _ hs4 ?_ ?_ ?_ ?_ ?_ ?_ ?_ ?_ ?_
        · -- entBounds
          intro e hme
          rw [hs3] at hme
          rcases List.mem_append.mp hme with hm | hm
          · exact hI.entBounds e (hsurv e hm).1
          · rw [List.mem_singleton.mp hm]
            exact hvalid
        · -- cellOfEntry
          intro e hme
          rw [hs3] at hme
          rcases List.mem_append.mp hme with hm | hm
          · exact hcellkeep e hm
          · rw [List.mem_singleton.mp hm]
            exact hs5
        · -- entryOfCell
          intro r c hin p hp
          by_cases hrc : r = row ∧ c = col
          · refine ⟨newEntry g row col, ?_, hrc.1.symm, hrc.2.symm, ?_⟩
            · rw [hs3]
              exact List.mem_append.mpr (Or.inr (List.mem_singleton.mpr rfl))
            · rw [hrc.1, hrc.2, hs5] at hp
              exact Option.some_inj.mp hp
          · rw [hs6 r c hrc] at hp
            by_cases hany : g.playHistory.any (clearsCell tc1 r c) = true
            · rw [if_pos hany] at hp
              exact absurd hp Option.noConfusion
            · rw [if_neg hany] at hp
              obtain ⟨e, hm, her, hec, hep⟩ := hI.entryOfCell r c hin p hp
              refine ⟨e, ?_, her, hec, hep⟩
              rw [hs3]
              refine List.mem_append.mpr (Or.inl ?_)
              rw [List.mem_filter]
              refine ⟨hm, ?_⟩
              simp only [Bool.not_eq_eq_eq_not, Bool.not_true]
              by_contra hcon
              have hexp : isExpired tc1 e = true := by
                revert hcon
                rcases isExpired tc1 e with _ | _ <;> simp
              apply hany
              rw [List.any_eq_true]
              refine ⟨e, hm, ?_⟩
              unfold clearsCell
              rw [hexp, her, hec]
              simp
        · -- distinctCells
          rw [hs3, List.pairwise_append]
          refine ⟨List.Pairwise.sublist (List.filter_sublist _) hI.distinctCells,
            List.pairwise_singleton _ _, ?_⟩
          intro a ha b hb
          rw [List.mem_singleton.mp hb]
          intro hcontra
          exact hnotmove a (hsurv a ha).1 ⟨hcontra.1, hcontra.2⟩
        · -- turnLt
          intro e hme
          rw [hs3] at hme
          rw [hs2]
          rcases List.mem_append.mp hme with hm | hm
          · have := hI.turnLt e (hsurv e hm).1
            omega
          · rw [List.mem_singleton.mp hm]
            show g.turnCount < g.turnCount + 1
            omega
        · -- turnRecent
          intro e hme
          rw [hs3] at hme
          rw [hs2]
          rcases List.mem_append.mp hme with hm | hm
          · have hexp := (hsurv e hm).2
            rw [show (isExpired tc1 e = false) ↔ ¬(isExpired tc1 e = true) from by simp] at hexp
            rw [isExpired_iff] at hexp
            omega
          · rw [List.mem_singleton.mp hm]
            show g.turnCount + 1 ≤ g.turnCount + 5
            omega
        · -- turnsSorted
          rw [hs3, List.pairwise_append]
          refine ⟨List.Pairwise.sublist (List.filter_sublist _) hI.turnsSorted,
            List.pairwise_singleton _ _, ?_⟩
          intro a ha b hb
          rw [List.mem_singleton.mp hb]
          exact hI.turnLt a (hsurv a ha).1
        · -- parityCur
          rw [hs1, hs2, Nat.even_add_one]
          rcases hcp : g.currentPlayer with _ | _
          · rw [if_pos rfl]
            constructor
            · intro hc
              exact absurd hc (by simp)
            · intro hc
              exact absurd (hI.parityCur.mp hcp) hc
          · rw [if_neg (by simp)]
            constructor
            · intro _ hev
              have hx := hI.parityCur.mpr hev
              rw [hcp] at hx
              exact Player.noConfusion hx
            · intro _
              rfl
        · -- parityEnt
          intro e hme
          rw [hs3] at hme
          rcases List.mem_append.mp hme with hm | hm
          · exact hI.parityEnt e (hsurv e hm).1
          · rw [List.mem_singleton.mp hm]
            exact hI.parityCur
    · rw [play_taken g row col hv he]
      exact hI
  · rw [play_invalid g row col (by simpa using hv)]
    exact hI

theorem GameInv_reachable (g : Game) (h : Reachable g) : GameInv g := by
  induction h with
  | init => exact GameInv_initGame
  | step g' row col _ ih => exact GameInv_play g' row col ih

/-! ### Characterising the win check on a well-formed board -/

set_option maxHeartbeats 2000000 in
theorem checkWin_iff (g : Game) (row col : Int) (hwf : wfBoard g.board)
    (hin : inBounds3 row col) :
    checkWin g row col = true ↔
      ∃ p, cellAt g.board row col = some p ∧ lineWinP g.board p row col := by
  obtain ⟨c00, c01, c02, c10, c11, c12, c20, c21, c22, hb⟩ := wfBoard_destruct g.board hwf
  obtain ⟨hr0, hr3, hc0, hc3⟩ := hin
  rcases hcell : cellAt g.board row col with _ | p <;>
    rcases int_lt3_cases hr0 hr3 with hr | hr | hr <;>
    rcases int_lt3_cases hc0 hc3 with hc | hc | hc <;>
    subst hr hc
  all_goals (
    unfold checkWin
    rw [hb] at hcell ⊢
    rw [hcell]
    simp only [lineWinP, cellAt, rowAt, cellIdx, hb]
    norm_num [List.all, List.enum, List.enumFrom, List.getD]
    try tauto)

/-! ### Expired entries belong to the opponent of the mover -/

/-- In a state satisfying the invariant, any history entry that the
upcoming move's expiry pass removes is exactly six turns old, hence of
the opposite parity — it was placed by the opponent of the player about
to move. -/
theorem expired_entry_opponent (g : Game) (hI : GameInv g) (e : PlayHistory)
    (hm : e ∈ g.playHistory) (hexp : isExpired (g.turnCount + 1) e = true) :
    e.player ≠ g.currentPlayer := by
  have h1 := hI.turnRecent e hm
  have h2 := (isExpired_iff _ e).mp hexp
  have hturn : e.turn + 5 = g.turnCount := by omega
  intro hcontra
  rcases hcp : g.currentPlayer with _ | _
  · have hev : Even g.turnCount := hI.parityCur.mp hcp
    have hevE : Even e.turn := (hI.parityEnt e hm).mp (by rw [hcontra, hcp])
    rw [Nat.even_iff] at hev hevE
    omega
  · have hnev : ¬ Even g.turnCount := fun hev => by
      have hx := hI.parityCur.mpr hev
      rw [hcp] at hx
      exact Player.noConfusion hx
    have hnevE : ¬ Even e.turn := fun hev => by
      have hx := (hI.parityEnt e hm).mpr hev
      rw [hcontra, hcp] at hx
      exact Player.noConfusion hx
    rw [Nat.even_iff] at hnev hnevE
    omega

/-- The central timing fact: for an accepted move from an invariant
state, running the expiry pass (and re-assertion of the last entry)
does not change the verdict of the win check for the just-played cell,
because every cell the pass clears held the opponent's marker. -/
theorem checkWin_updateBoard_eq (g : Game) (row col : Int) (hI : GameInv g)
    (hvalid : inBounds3 row col) (he : cellAt g.board row col = none) :
    checkWin (updateBoard (afterMove g row col)) row col =
      checkWin (afterMove g row col) row col := by
  obtain ⟨hs1, hs2, hs3, hs4, hs5, hs6⟩ :=
    updateBoard_afterMove_shape g row col hI.wf hI.entBounds hvalid
  set tc1 := g.turnCount + 1 with htc1
  set g2 := updateBoard (afterMove g row col) with hg2
  have hb1 : (afterMove g row col).board = setCell g.board row col (some g.currentPlayer) := rfl
  have hwf1 : wfBoard (afterMove g row col).board := wfBoard_setCell _ _ _ _ hI.wf
  have hb1self : cellAt (afterMove g row col).board row col = some g.currentPlayer := by
    rw [hb1]
    exact cellAt_setCell_self _ _ _ _ hI.wf hvalid
  have hb1ne : ∀ r c : Int, ¬(r = row ∧ c = col) →
      cellAt (afterMove g row col).board r c = cellAt g.board r c := by
    intro r c hrc
    rw [hb1]
    exact cellAt_setCell_ne _ _ _ _ _ _ hvalid.1 hvalid.2.2.1 hrc
  have hpt : ∀ r c : Int, (cellAt g2.board r c = some g.currentPlayer) ↔
      (cellAt (afterMove g row col).board r c = some g.currentPlayer) := by
    intro r c
    by_cases hrc : r = row ∧ c = col
    · rw [hrc.1, hrc.2, hs5, hb1self]
    · rw [hs6 r c hrc, hb1ne r c hrc]
      by_cases hany : g.playHistory.any (clearsCell tc1 r c) = true
      · rw [if_pos hany]
        obtain ⟨e, hm, hcl⟩ := List.any_eq_true.mp hany
        have hparts : isExpired tc1 e = true ∧ e.row = r ∧ e.col = c := by
          unfold clearsCell at hcl
          simp only [Bool.and_eq_true, beq_iff_eq] at hcl
          exact ⟨hcl.1.1, hcl.1.2, hcl.2⟩
        have hcellv : cellAt g.board r c = some e.player := by
          rw [← hparts.2.1, ← hparts.2.2]
          exact hI.cellOfEntry e hm
        have hneq : e.player ≠ g.currentPlayer :=
          expired_entry_opponent g hI e hm hparts.1
        rw [hcellv]
        constructor
        · intro hcon
          exact absurd hcon (by simp)
        · intro hcon
          exact absurd (Option.some_inj.mp hcon) hneq
      · rw [if_neg hany]
  have hline : lineWinP g2.board g.currentPlayer row col ↔
      lineWinP (afterMove g row col).board g.currentPlayer row col := by
    unfold lineWinP
    simp only [hpt]
  rw [Bool.eq_iff_iff]
  rw [checkWin_iff g2 row col hs4 hvalid,
    checkWin_iff (afterMove g row col) row col hwf1 hvalid]
  constructor
  · rintro ⟨p, hp, hl⟩
    have hpm : p = g.currentPlayer := by
      rw [hs5] at hp
      exact (Option.some_inj.mp hp).symm
    subst hpm
    exact ⟨g.currentPlayer, hb1self, hline.mp hl⟩
  · rintro ⟨p, hp, hl⟩
    have hpm : p = g.currentPlayer := by
      rw [hb1self] at hp
      exact (Option.some_inj.mp hp).symm
    subst hpm
    exact ⟨g.currentPlayer, hs5, hline.mpr hl⟩

/-! ### Counting occupied cells -/

theorem countOccupied_empty_of_none (b : Board) (hwf : wfBoard b)
    (hnone : ∀ r c : Int, inBounds3 r c → cellAt b r c = none) :
    countOccupied b = 0 := by
  obtain ⟨c00, c01, c02, c10, c11, c12, c20, c21, c22, hb⟩ := wfBoard_destruct b hwf
  subst hb
  have h00 := hnone 0 0 (by unfold inBounds3; omega)
  have h01 := hnone 0 1 (by unfold inBounds3; omega)
  have h02 := hnone 0 2 (by unfold inBounds3; omega)
  have h10 := hnone 1 0 (by unfold inBounds3; omega)
  have h11 := hnone 1 1 (by unfold inBounds3; omega)
  have h12 := hnone 1 2 (by unfold inBounds3; omega)
  have h20 := hnone 2 0 (by unfold inBounds3; omega)
  have h21 := hnone 2 1 (by unfold inBounds3; omega)
  have h22 := hnone 2 2 (by unfold inBounds3; omega)
  unfold cellAt cellIdx rowAt at h00 h01 h02 h10 h11 h12 h20 h21 h22
  simp only [List.getD] at h00 h01 h02 h10 h11 h12 h20 h21 h22
  norm_num at h00 h01 h02 h10 h11 h12 h20 h21 h22
  subst h00 h01 h02 h10 h11 h12 h20 h21 h22
  rfl

theorem countOccupied_setCell_none (b : Board) (r c : Int) (p : Player)
    (hwf : wfBoard b) (hin : inBounds3 r c) (hcell : cellAt b r c = some p) :
    countOccupied b = countOccupied (setCell b r c none) + 1 := by
  obtain ⟨c00, c01, c02, c10, c11, c12, c20, c21, c22, hb⟩ := wfBoard_destruct b hwf
  subst hb
  obtain ⟨h1, h2, h3, h4⟩ := hin
  rcases int_lt3_cases h1 h2 with hr | hr | hr <;>
    rcases int_lt3_cases h3 h4 with hc | hc | hc <;>
      subst hr hc <;>
  · unfold cellAt cellIdx rowAt at hcell
    simp only [List.getD] at hcell
    norm_num at hcell
    subst hcell
    simp [countOccupied, setCell, List.countP_cons]
    omega

theorem countOccupied_eq_length (h : List PlayHistory) :
    ∀ b : Board, wfBoard b →
    (∀ e ∈ h, inBounds3 e.row e.col) →
    (∀ e ∈ h, cellAt b e.row e.col = some e.player) →
    (∀ r c : Int, inBounds3 r c → ∀ p : Player, cellAt b r c = some p →
      ∃ e ∈ h, e.row = r ∧ e.col = c ∧ e.player = p) →
    h.Pairwise (fun a b => ¬(a.row = b.row ∧ a.col = b.col)) →
    countOccupied b = h.length := by
  induction h with
  | nil =>
    intro b hwf _ _ hocc _
    refine countOccupied_empty_of_none b hwf ?_
    intro r c hin
    rcases hv : cellAt b r c with _ | p
    · rfl
    · obtain ⟨e, hm, _⟩ := hocc r c hin p hv
      cases hm
  | cons e rest ih =>
    intro b hwf hent hcell hocc hdist
    have hein : inBounds3 e.row e.col := hent e (List.mem_cons_self _ _)
    have hecell : cellAt b e.row e.col = some e.player := hcell e (List.mem_cons_self _ _)
    have hdhead : ∀ e' ∈ rest, ¬(e.row = e'.row ∧ e.col = e'.col) :=
      fun e' he' => List.rel_of_pairwise_cons hdist he'
    have hwf2 : wfBoard (setCell b e.row e.col none) := wfBoard_setCell _ _ _ _ hwf
    have hstep := countOccupied_setCell_none b e.row e.col e.player hwf hein hecell
    have hih := ih (setCell b e.row e.col none) hwf2
      (fun e' he' => hent e' (List.mem_cons_of_mem _ he'))
      (fun e' he' => by
        rw [cellAt_setCell_ne _ _ _ _ _ _ hein.1 hein.2.2.1
          (fun hcon => hdhead e' he' ⟨hcon.1.symm, hcon.2.symm⟩)]
        exact hcell e' (List.mem_cons_of_mem _ he'))
      (fun r c hin p hp => by
        by_cases hrc : r = e.row ∧ c = e.col
        · rw [hrc.1, hrc.2, cellAt_setCell_self _ _ _ _ hwf hein] at hp
          exact Option.noConfusion hp
        · rw [cellAt_setCell_ne _ _ _ _ _ _ hein.1 hein.2.2.1 hrc] at hp
          obtain ⟨e', hm', h1', h2', h3'⟩ := hocc r c hin p hp
          rcases List.mem_cons.mp hm' with rfl | hm'
          · exact absurd ⟨h1'.symm, h2'.symm⟩ hrc
          · exact ⟨e', hm', h1', h2', h3'⟩)
      (List.Pairwise.of_cons hdist)
    rw [hstep, hih]
    rfl

/-! ### The win-banner removal timer (`Game.showWinner`) -/

namespace Banner

/-- The host's timeout table, shallowly: the ids already handed out and
the ids of scheduled callbacks still pending. -/
structure TimerSys where
  nextId : Nat
  active : List Nat
deriving DecidableEq, Repr

/-- Host `window.setTimeout`: returns a fresh id and leaves the callback
pending. -/
def setTimeout (t : TimerSys) : Nat × TimerSys :=
  (t.nextId, ⟨t.nextId + 1, t.active ++ [t.nextId]⟩)

/-- Host `clearTimeout`: cancels a pending callback. -/
def clearTimeout (t : TimerSys) (i : Nat) : TimerSys :=
  ⟨t.nextId, t.active.erase i⟩

/-- The banner-related state: the timer table together with the
`winnerTimeoutId` field of the `Game` object. -/
structure AdapterState where
  timers : TimerSys
  winnerTimeoutId : Option Nat
deriving DecidableEq, Repr

/-- Constructor state: `winnerTimeoutId = null`, nothing scheduled. -/
def initAdapter : AdapterState := ⟨⟨0, []⟩, none⟩

/-- The timer logic of `Game.showWinner`: if a removal timer is
pending, cancel it and null the field; then schedule the single-shot
2-second removal and remember its id. -/
def showWinner (s : AdapterState) : AdapterState :=
  let s1 : AdapterState :=
    match s.winnerTimeoutId with
    | some i => ⟨clearTimeout s.timers i, none⟩
    | none => s
  ⟨(setTimeout s1.timers).2, some (setTimeout s1.timers).1⟩

/-- A pending removal timer fires: the host drops it from the pending
set and the callback nulls `winnerTimeoutId` (after removing the banner
element). -/
def fire (s : AdapterState) (i : Nat) : AdapterState :=
  if i ∈ s.timers.active then
    ⟨⟨s.timers.nextId, s.timers.active.erase i⟩, none⟩
  else s

/-- Adapter states arising in a run: any interleaving of win events and
timer expirations from the constructor state. -/
inductive ReachableA : AdapterState → Prop where
  | init : ReachableA initAdapter
  | showStep (s : AdapterState) : ReachableA s → ReachableA (showWinner s)
  | fireStep (s : AdapterState) (i : Nat) : ReachableA s → ReachableA (fire s i)

/-- Banner invariant: the pending removal timers are exactly the one
recorded in `winnerTimeoutId` (none or a single one), and every pending
id was handed out before `nextId`. -/
structure AInv (s : AdapterState) : Prop where
  active_eq : s.timers.active = s.winnerTimeoutId.toList
  id_lt : ∀ i ∈ s.timers.active, i < s.timers.nextId

theorem AInv_init : AInv initAdapter := by
  constructor <;> simp [initAdapter]

theorem AInv_showWinner (s : AdapterState) (h : AInv s) : AInv (showWinner s) := by
  rcases htid : s.winnerTimeoutId with _ | i
  · have hact : s.timers.active = [] := by
      rw [h.active_eq, htid]
      rfl
    have hshow : showWinner s = ⟨⟨s.timers.nextId + 1, s.timers.active ++ [s.timers.nextId]⟩,
        some s.timers.nextId⟩ := by
      unfold showWinner
      rw [htid]
      rfl
    rw [hshow]
    constructor
    · show s.timers.active ++ [s.timers.nextId] = [s.timers.nextId]
      rw [hact]
      rfl
    · intro j hj
      show j < s.timers.nextId + 1
      rcases List.mem_append.mp hj with hm | hm
      · have := h.id_lt j hm
        omega
      · rw [List.mem_singleton.mp hm]
        omega
  · have hact : s.timers.active.erase i = [] := by
      rw [h.active_eq, htid]
      simp
    have hshow : showWinner s = ⟨⟨s.timers.nextId + 1, s.timers.active.erase i ++ [s.timers.nextId]⟩,
        some s.timers.nextId⟩ := by
      unfold showWinner
      rw [htid]
      rfl
    rw [hshow]
    constructor
    · show s.timers.active.erase i ++ [s.timers.nextId] = [s.timers.nextId]
      rw [hact]
      rfl
    · intro j hj
      show j < s.timers.nextId + 1
      rcases List.mem_append.mp hj with hm | hm
      · have := h.id_lt j (List.mem_of_mem_erase hm)
        omega
      · rw [List.mem_singleton.mp hm]
        omega

theorem AInv_fire (s : AdapterState) (i : Nat) (h : AInv s) : AInv (fire s i) := by
  unfold fire
  by_cases hm : i ∈ s.timers.active
  · rw [if_pos hm]
    have hsome : s.winnerTimeoutId = some i := by
      rcases htid : s.winnerTimeoutId with _ | j
      · rw [h.active_eq, htid] at hm
        cases hm
      · rw [h.active_eq, htid] at hm
        have : i = j := by simpa using hm
        rw [this]
    constructor
    · show s.timers.active.erase i = (none : Option Nat).toList
      rw [h.active_eq, hsome]
      simp
    · intro j hj
      exact h.id_lt j (List.mem_of_mem_erase hj)
  · rw [if_neg hm]
    exact h

theorem AInv_reachable (s : AdapterState) (h : ReachableA s) : AInv s := by
  induction h with
  | init => exact AInv_init
  | showStep s' _ ih => exact AInv_showWinner s' ih
  | fireStep s' i _ ih => exact AInv_fire s' i ih

end Banner

/-! ### Further helpers for the claims -/

instance (r c : Int) : Decidable (inBounds3 r c) := by
  unfold inBounds3
  infer_instance

instance {ε : Type u} {α : Type v} [DecidableEq ε] [DecidableEq α] :
    DecidableEq (Except ε α) := fun
  | .error a, .error b =>
    if h : a = b then .isTrue (congrArg Except.error h)
    else .isFalse fun hh => h (Except.error.inj hh)
  | .error _, .ok _ => .isFalse Except.noConfusion
  | .ok _, .error _ => .isFalse Except.noConfusion
  | .ok a, .ok b =>
    if h : a = b then .isTrue (congrArg Except.ok h)
    else .isFalse fun hh => h (Except.ok.inj hh)

/-- List-level form of `no_clear_at_live_cell`: in a history whose
entries occupy pairwise distinct cells, nothing clears the cell of a
non-expired entry. -/
theorem no_clear_at_cell (h1 : List PlayHistory) (tc : Nat)
    (hdist : h1.Pairwise fun a b => ¬(a.row = b.row ∧ a.col = b.col))
    (e : PlayHistory) (he : e ∈ h1) (hexp : isExpired tc e = false) :
    h1.any (clearsCell tc e.row e.col) = false := by
  rw [List.any_eq_false]
  intro e' he'
  unfold clearsCell
  by_cases heq : e' = e
  · subst heq
    rw [hexp, Bool.false_and, Bool.false_and]
    simp
  · have hd := List.Pairwise.forall distinct_symm hdist he' he heq
    intro hcontra
    simp only [Bool.and_eq_true, beq_iff_eq] at hcontra
    exact hd ⟨hcontra.1.2, hcontra.2⟩

/-- When at most one element of a list can satisfy `P` (pairwise), and
one does, the filter is that singleton. -/
theorem filter_eq_singleton_of_pairwise {P : PlayHistory → Bool} :
    ∀ (l : List PlayHistory),
    l.Pairwise (fun a b => ¬(P a = true ∧ P b = true)) →
    ∀ e ∈ l, P e = true → l.filter P = [e] := by
  intro l
  induction l with
  | nil => intro _ e he; cases he
  | cons a rest ih =>
    intro hpair e he hPe
    rcases List.mem_cons.mp he with rfl | hm
    · rw [List.filter_cons_of_pos hPe]
      have hnil : rest.filter P = [] := by
        rw [List.filter_eq_nil_iff]
        intro b hb hPb
        exact List.rel_of_pairwise_cons hpair hb ⟨hPe, hPb⟩
      rw [hnil]
    · have hPa : ¬ P a = true := fun hPa =>
        List.rel_of_pairwise_cons hpair hm ⟨hPa, hPe⟩
      rw [List.filter_cons_of_neg (by simpa using hPa)]
      exact ih (List.Pairwise.of_cons hpair) e hm hPe

/-- The pairwise distinctness of recorded cells, transported to the
"matches cell (`r`, `c`)" predicate. -/
theorem pairwise_at_cell (g : Game) (hI : GameInv g) (r c : Int) :
    g.playHistory.Pairwise
      (fun a b => ¬((a.row == r && a.col == c) = true ∧ (b.row == r && b.col == c) = true)) := by
  refine hI.distinctCells.imp ?_
  intro a b hd hcon
  simp only [Bool.and_eq_true, beq_iff_eq] at hcon
  exact hd ⟨hcon.1.1.trans hcon.2.1.symm, hcon.1.2.trans hcon.2.2.symm⟩

/-! ### The claims -/

/-- C7: a freshly constructed engine is in the canonical initial state:
an all-empty 3×3 board, `currentPlayer = X`, `turnCount = 0`, empty
history. -/
theorem C7_fresh_engine_initial_state :
    initGame.board = [[none, none, none], [none, none, none], [none, none, none]]
    ∧ initGame.currentPlayer = Player.X
    ∧ initGame.turnCount = 0
    ∧ initGame.playHistory = [] :=
  ⟨rfl, rfl, rfl, rfl⟩

/-- C5: for any reachable engine state, `play` on coordinates outside
`[0,3) × [0,3)` fails with the invalid-cell error and returns the state
unchanged. -/
theorem C5_invalid_cell_rejected (g : Game) (hr : Reachable g) (row col : Int)
    (hout : ¬ inBounds3 row col) :
    play g row col = (.error .invalidCell, g) := by
  have hI := GameInv_reachable g hr
  apply play_invalid
  rcases hb : isValidCell g.board row col with _ | _
  · rfl
  · exact absurd ((isValidCell_iff g.board hI.wf row col).mp hb) hout

/-- Witness for C5: the fresh engine rejects the move (3, 3). -/
theorem C5_witness : play initGame 3 3 = (.error .invalidCell, initGame) :=
  C5_invalid_cell_rejected initGame Reachable.init 3 3 (by decide)

/-- C6: for any reachable engine state, `play` on an in-bounds but
occupied cell fails with the cell-taken error and returns the state
unchanged. -/
theorem C6_taken_cell_rejected (g : Game) (hr : Reachable g) (row col : Int)
    (hin : inBounds3 row col) (hocc : cellAt g.board row col ≠ none) :
    play g row col = (.error .cellTaken, g) := by
  have hI := GameInv_reachable g hr
  exact play_taken g row col ((isValidCell_iff g.board hI.wf row col).mpr hin) hocc

/-- Witness for C6: after playing (0, 0), playing (0, 0) again fails
with the cell-taken error and leaves the state unchanged. -/
theorem C6_witness :
    play (play initGame 0 0).2 0 0 = (.error .cellTaken, (play initGame 0 0).2) :=
  C6_taken_cell_rejected (play initGame 0 0).2
    (Reachable.step initGame 0 0 Reachable.init) 0 0 (by decide) (by decide)

/-- C3: on any accepted move from a reachable state, the win check that
`play` performs (against the board after the expiry pass) gives the
same verdict as a check against the board immediately after the move
was placed — in-call expiry never changes whether the just-played move
is judged a win. -/
theorem C3_win_check_before_expiry (g : Game) (hr : Reachable g) (row col : Int)
    (hin : inBounds3 row col) (hempty : cellAt g.board row col = none) :
    checkWin (updateBoard (afterMove g row col)) row col =
      checkWin (afterMove g row col) row col :=
  checkWin_updateBoard_eq g row col (GameInv_reachable g hr) hin hempty

/-- Witness for C3: the first move of a game. -/
theorem C3_witness :
    checkWin (updateBoard (afterMove initGame 0 0)) 0 0 =
      checkWin (afterMove initGame 0 0) 0 0 :=
  C3_win_check_before_expiry initGame Reachable.init 0 0 (by decide) (by decide)

/-- C4: an accepted, non-winning move at (`row`, `col`) returns no
value, sets the played cell to the prior current player, increments the
turn counter by one, toggles the current player, and appends exactly
one history record (the surviving older records, a sublist of the prior
history, keep their order). -/
theorem C4_legal_nonwinning_move (g : Game) (hr : Reachable g) (row col : Int)
    (hin : inBounds3 row col) (hempty : cellAt g.board row col = none)
    (hnowin : checkWin (updateBoard (afterMove g row col)) row col = false) :
    (play g row col).1 = .ok none
    ∧ cellAt (play g row col).2.board row col = some g.currentPlayer
    ∧ (play g row col).2.turnCount = g.turnCount + 1
    ∧ (play g row col).2.currentPlayer = (if g.currentPlayer = .X then .O else .X)
    ∧ ∃ kept, kept.Sublist g.playHistory ∧
        (play g row col).2.playHistory = kept ++ [⟨g.currentPlayer, row, col, g.turnCount⟩] := by
  have hI := GameInv_reachable g hr
  have hv : isValidCell g.board row col = true := (isValidCell_iff g.board hI.wf row col).mpr hin
  obtain ⟨hs1, hs2, hs3, hs4, hs5, hs6⟩ :=
    updateBoard_afterMove_shape g row col hI.wf hI.entBounds hin
  rw [play_accepted g row col hv hempty, if_neg (by simp [hnowin])]
  refine ⟨rfl, ?_, ?_, ?_, ?_⟩
  · show cellAt (updateBoard (afterMove g row col)).board row col = some g.currentPlayer
    exact hs5
  · show (updateBoard (afterMove g row col)).turnCount = g.turnCount + 1
    exact hs2
  · show (if (updateBoard (afterMove g row col)).currentPlayer = .X then Player.O else Player.X)
      = (if g.currentPlayer = .X then Player.O else Player.X)
    rw [hs1]
  · refine ⟨g.playHistory.filter (fun e => !(isExpired (g.turnCount + 1) e)),
      List.filter_sublist _, ?_⟩
    show (updateBoard (afterMove g row col)).playHistory = _
    exact hs3

/-- Witness for C4: the first move of a game, at (0, 0). -/
theorem C4_witness :
    (play initGame 0 0).1 = .ok none
    ∧ cellAt (play initGame 0 0).2.board 0 0 = some initGame.currentPlayer
    ∧ (play initGame 0 0).2.turnCount = initGame.turnCount + 1
    ∧ (play initGame 0 0).2.currentPlayer
        = (if initGame.currentPlayer = .X then .O else .X)
    ∧ ∃ kept, kept.Sublist initGame.playHistory ∧
        (play initGame 0 0).2.playHistory =
          kept ++ [⟨initGame.currentPlayer, 0, 0, initGame.turnCount⟩] :=
  C4_legal_nonwinning_move initGame Reachable.init 0 0 (by decide) (by decide) (by decide)

/-- C2: on any accepted move from a reachable state, the expiry pass
run by that same `play` call (after the turn counter is incremented)
removes exactly the history entries that are six or more turns old,
clearing their cells back to empty, while every younger entry stays in
the history with its cell intact. -/
theorem C2_expiry_of_old_entries (g : Game) (hr : Reachable g) (row col : Int)
    (hin : inBounds3 row col) (hempty : cellAt g.board row col = none) :
    (clearOldTurnsFromPlayHistory (afterMove g row col)).playHistory
      = (afterMove g row col).playHistory.filter
          (fun e => !(isExpired (afterMove g row col).turnCount e))
    ∧ (∀ e ∈ (afterMove g row col).playHistory,
        isExpired (afterMove g row col).turnCount e = true →
          e ∉ (clearOldTurnsFromPlayHistory (afterMove g row col)).playHistory
          ∧ cellAt (clearOldTurnsFromPlayHistory (afterMove g row col)).board e.row e.col = none)
    ∧ (∀ e ∈ (afterMove g row col).playHistory,
        isExpired (afterMove g row col).turnCount e = false →
          e ∈ (clearOldTurnsFromPlayHistory (afterMove g row col)).playHistory
          ∧ cellAt (clearOldTurnsFromPlayHistory (afterMove g row col)).board e.row e.col
            = cellAt (afterMove g row col).board e.row e.col) := by
  have hI := GameInv_reachable g hr
  have hwf1 : wfBoard (afterMove g row col).board := wfBoard_setCell _ _ _ _ hI.wf
  have hnotmove : ∀ e ∈ g.playHistory, ¬(e.row = row ∧ e.col = col) := by
    intro e hme hcontra
    have hce := hI.cellOfEntry e hme
    rw [hcontra.1, hcontra.2, hempty] at hce
    exact Option.noConfusion hce
  have hent1 : ∀ e ∈ (afterMove g row col).playHistory, inBounds3 e.row e.col := by
    intro e he
    rcases List.mem_append.mp he with hm | hm
    · exact hI.entBounds e hm
    · rw [List.mem_singleton.mp hm]
      exact hin
  have hdist1 : (afterMove g row col).playHistory.Pairwise
      (fun a b => ¬(a.row = b.row ∧ a.col = b.col)) := by
    show (g.playHistory ++ [newEntry g row col]).Pairwise _
    rw [List.pairwise_append]
    exact ⟨hI.distinctCells, List.pairwise_singleton _ _,
      fun a ha b hb => by
        rw [List.mem_singleton.mp hb]
        exact hnotmove a ha⟩
  obtain ⟨hc1, hc2, hc3⟩ := clearAux_spec (afterMove g row col).turnCount
    (afterMove g row col).playHistory (afterMove g row col).board hwf1 hent1
  have hhist : (clearOldTurnsFromPlayHistory (afterMove g row col)).playHistory
      = (afterMove g row col).playHistory.filter
          (fun e => !(isExpired (afterMove g row col).turnCount e)) := hc1
  have hboard : (clearOldTurnsFromPlayHistory (afterMove g row col)).board
      = (clearAux (afterMove g row col).turnCount (afterMove g row col).board
          (afterMove g row col).playHistory).1 := rfl
  refine ⟨hhist, ?_, ?_⟩
  · intro e hm hexp
    constructor
    · rw [hhist]
      intro hmem
      have := (List.mem_filter.mp hmem).2
      rw [hexp] at this
      exact Bool.noConfusion this
    · rw [hboard, hc3 e.row e.col]
      rw [if_pos ?_]
      rw [List.any_eq_true]
      refine ⟨e, hm, ?_⟩
      unfold clearsCell
      rw [hexp]
      simp
  · intro e hm hexp
    constructor
    · rw [hhist, List.mem_filter]
      exact ⟨hm, by rw [hexp]; rfl⟩
    · rw [hboard, hc3 e.row e.col]
      rw [if_neg ?_]
      rw [no_clear_at_cell (afterMove g row col).playHistory
        (afterMove g row col).turnCount hdist1 e hm hexp]
      simp

/-- Witness for C2: the first move of a game. -/
theorem C2_witness :
    (clearOldTurnsFromPlayHistory (afterMove initGame 0 0)).playHistory
      = (afterMove initGame 0 0).playHistory.filter
          (fun e => !(isExpired (afterMove initGame 0 0).turnCount e))
    ∧ (∀ e ∈ (afterMove initGame 0 0).playHistory,
        isExpired (afterMove initGame 0 0).turnCount e = true →
          e ∉ (clearOldTurnsFromPlayHistory (afterMove initGame 0 0)).playHistory
          ∧ cellAt (clearOldTurnsFromPlayHistory (afterMove initGame 0 0)).board e.row e.col
            = none)
    ∧ (∀ e ∈ (afterMove initGame 0 0).playHistory,
        isExpired (afterMove initGame 0 0).turnCount e = false →
          e ∈ (clearOldTurnsFromPlayHistory (afterMove initGame 0 0)).playHistory
          ∧ cellAt (clearOldTurnsFromPlayHistory (afterMove initGame 0 0)).board e.row e.col
            = cellAt (afterMove initGame 0 0).board e.row e.col) :=
  C2_expiry_of_old_entries initGame Reachable.init 0 0 (by decide) (by decide)

instance (b : Board) (p : Player) (row col : Int) : Decidable (lineWinP b p row col) := by
  unfold lineWinP
  infer_instance

/-- C1: whenever an accepted move completes a line of the mover's
markers through the played cell (its full row, its full column, the
main diagonal when `row = col`, or the anti-diagonal when
`row + col = 2`, evaluated on the board right after the marker is
placed), `play` returns "`<player>` wins!" and the resulting state is
the initial one: empty board, current player X, zero turns, empty
history. In particular the spec's five-move game (0,0), (1,0), (0,1),
(1,1), (0,2) ends with "X wins!" and a reset engine. -/
theorem C1_win_message_and_reset :
    (∀ (g : Game) (row col : Int), Reachable g → inBounds3 row col →
      cellAt g.board row col = none →
      lineWinP (afterMove g row col).board g.currentPlayer row col →
      play g row col = (.ok (some (g.currentPlayer.name ++ " wins!")), initGame))
    ∧ play (play (play (play (play initGame 0 0).2 1 0).2 0 1).2 1 1).2 0 2
        = (.ok (some "X wins!"), initGame) := by
  constructor
  · intro g row col hr hin hempty hline
    have hI := GameInv_reachable g hr
    have hv : isValidCell g.board row col = true :=
      (isValidCell_iff g.board hI.wf row col).mpr hin
    have hwf1 : wfBoard (afterMove g row col).board := wfBoard_setCell _ _ _ _ hI.wf
    have hb1self : cellAt (afterMove g row col).board row col = some g.currentPlayer :=
      cellAt_setCell_self _ _ _ _ hI.wf hin
    have hwin : checkWin (updateBoard (afterMove g row col)) row col = true := by
      rw [checkWin_updateBoard_eq g row col hI hin hempty]
      rw [checkWin_iff (afterMove g row col) row col hwf1 hin]
      exact ⟨g.currentPlayer, hb1self, hline⟩
    rw [play_accepted g row col hv hempty, if_pos hwin]
    rfl
  · decide

/-- Witness for C1: its universal part applied to the spec's example —
the fifth move (0, 2) of the game (0,0), (1,0), (0,1), (1,1) completes
the top row for X. -/
theorem C1_witness :
    play (play (play (play (play initGame 0 0).2 1 0).2 0 1).2 1 1).2 0 2
      = (.ok (some ((play (play (play (play initGame 0 0).2 1 0).2 0 1).2 1 1).2.currentPlayer.name
          ++ " wins!")), initGame) :=
  C1_win_message_and_reset.1 (play (play (play (play initGame 0 0).2 1 0).2 0 1).2 1 1).2 0 2
    (Reachable.step _ 1 1 (Reachable.step _ 0 1 (Reachable.step _ 1 0
      (Reachable.step _ 0 0 Reachable.init))))
    (by decide) (by decide) (by decide)

/-- C9: board–history correspondence on every reachable state — a cell
holds a marker exactly when the history has exactly one record for that
cell, with that marker; hence occupied cells and history records are
equinumerous. -/
theorem C9_board_history_correspondence (g : Game) (hr : Reachable g) :
    (∀ r c : Int, inBounds3 r c → ∀ p : Player,
      (cellAt g.board r c = some p ↔ ∃ e, entriesAt g r c = [e] ∧ e.player = p))
    ∧ countOccupied g.board = g.playHistory.length := by
  have hI := GameInv_reachable g hr
  constructor
  · intro r c hin p
    constructor
    · intro hp
      obtain ⟨e, hm, her, hec, hep⟩ := hI.entryOfCell r c hin p hp
      refine ⟨e, ?_, hep⟩
      unfold entriesAt
      exact filter_eq_singleton_of_pairwise g.playHistory (pairwise_at_cell g hI r c) e hm
        (by rw [her, hec]; simp)
    · rintro ⟨e, hfil, hep⟩
      have hm : e ∈ entriesAt g r c := by
        rw [hfil]
        exact List.mem_singleton.mpr rfl
      unfold entriesAt at hm
      obtain ⟨hmem, hcond⟩ := List.mem_filter.mp hm
      simp only [Bool.and_eq_true, beq_iff_eq] at hcond
      have hce := hI.cellOfEntry e hmem
      rw [hcond.1, hcond.2, hep] at hce
      exact hce
  · exact countOccupied_eq_length g.playHistory g.board hI.wf hI.entBounds
      hI.cellOfEntry hI.entryOfCell hI.distinctCells

/-- Witness for C9: the state after one move. -/
theorem C9_witness :
    (∀ r c : Int, inBounds3 r c → ∀ p : Player,
      (cellAt (play initGame 0 0).2.board r c = some p ↔
        ∃ e, entriesAt (play initGame 0 0).2 r c = [e] ∧ e.player = p))
    ∧ countOccupied (play initGame 0 0).2.board = (play initGame 0 0).2.playHistory.length :=
  C9_board_history_correspondence (play initGame 0 0).2
    (Reachable.step initGame 0 0 Reachable.init)

/-- C10: bounded fading memory — on every reachable state each recorded
turn number lies strictly between `turnCount - 6` and `turnCount`, the
turn numbers increase along the history, and neither the history nor
the set of occupied cells ever exceeds five. -/
theorem C10_bounded_fading_memory (g : Game) (hr : Reachable g) :
    (∀ e ∈ g.playHistory, (g.turnCount : Int) - 6 < (e.turn : Int) ∧ e.turn < g.turnCount)
    ∧ g.playHistory.Pairwise (fun a b => a.turn < b.turn)
    ∧ g.playHistory.length ≤ 5
    ∧ countOccupied g.board ≤ 5 := by
  have hI := GameInv_reachable g hr
  have hlen : g.playHistory.length ≤ 5 := by
    have hnodup : (g.playHistory.map PlayHistory.turn).Nodup := by
      rw [List.Nodup, List.pairwise_map]
      exact hI.turnsSorted.imp Nat.ne_of_lt
    have hsub : (g.playHistory.map PlayHistory.turn).toFinset ⊆
        Finset.Ico (g.turnCount - 5) g.turnCount := by
      intro x hx
      rw [List.mem_toFinset] at hx
      obtain ⟨e, hm, rfl⟩ := List.mem_map.mp hx
      rw [Finset.mem_Ico]
      have h1 := hI.turnLt e hm
      have h2 := hI.turnRecent e hm
      omega
    have hcard := Finset.card_le_card hsub
    rw [List.toFinset_card_of_nodup hnodup, Nat.card_Ico] at hcard
    have hlenl := List.length_map g.playHistory PlayHistory.turn
    omega
  refine ⟨?_, hI.turnsSorted, hlen, ?_⟩
  · intro e hm
    have h1 := hI.turnLt e hm
    have h2 := hI.turnRecent e hm
    constructor <;> omega
  · rw [countOccupied_eq_length g.playHistory g.board hI.wf hI.entBounds
      hI.cellOfEntry hI.entryOfCell hI.distinctCells]
    exact hlen

/-- Witness for C10: the state after one move. -/
theorem C10_witness :
    (∀ e ∈ (play initGame 0 0).2.playHistory,
      ((play initGame 0 0).2.turnCount : Int) - 6 < (e.turn : Int)
        ∧ e.turn < (play initGame 0 0).2.turnCount)
    ∧ (play initGame 0 0).2.playHistory.Pairwise (fun a b => a.turn < b.turn)
    ∧ (play initGame 0 0).2.playHistory.length ≤ 5
    ∧ countOccupied (play initGame 0 0).2.board ≤ 5 :=
  C10_bounded_fading_memory (play initGame 0 0).2
    (Reachable.step initGame 0 0 Reachable.init)

namespace Banner

/-- After a win is shown from a state satisfying the banner invariant,
exactly the freshly scheduled removal timer is pending. -/
theorem showWinner_active (s : AdapterState) (h : AInv s) :
    (showWinner s).timers.active = [s.timers.nextId] := by
  rcases htid : s.winnerTimeoutId with _ | i
  · have hact : s.timers.active = [] := by
      rw [h.active_eq, htid]
      rfl
    have hshow : showWinner s = ⟨⟨s.timers.nextId + 1, s.timers.active ++ [s.timers.nextId]⟩,
        some s.timers.nextId⟩ := by
      unfold showWinner
      rw [htid]
      rfl
    rw [hshow]
    show s.timers.active ++ [s.timers.nextId] = [s.timers.nextId]
    rw [hact]
    rfl
  · have hact : s.timers.active.erase i = [] := by
      rw [h.active_eq, htid]
      simp
    have hshow : showWinner s = ⟨⟨s.timers.nextId + 1,
        s.timers.active.erase i ++ [s.timers.nextId]⟩, some s.timers.nextId⟩ := by
      unfold showWinner
      rw [htid]
      rfl
    rw [hshow]
    show s.timers.active.erase i ++ [s.timers.nextId] = [s.timers.nextId]
    rw [hact]
    rfl

end Banner

/-- C8: at most one banner-removal timer is ever pending — in every
reachable adapter state at most one removal callback is scheduled, and
when a win is shown while a previous banner's timer is still recorded,
that prior timer is no longer pending afterwards (it was cancelled
before the new single-shot timer was scheduled). -/
theorem C8_single_banner_timer :
    (∀ s : Banner.AdapterState, Banner.ReachableA s →
      ((Banner.showWinner s).timers.active.length ≤ 1
        ∧ ∀ i : Nat, s.winnerTimeoutId = some i →
            i ∉ (Banner.showWinner s).timers.active))
    ∧ (∀ s : Banner.AdapterState, Banner.ReachableA s → s.timers.active.length ≤ 1) := by
  constructor
  · intro s hr
    have h := Banner.AInv_reachable s hr
    have hshape := Banner.showWinner_active s h
    constructor
    · rw [hshape]
      exact Nat.le_refl 1
    · intro i hi
      rw [hshape]
      have hmem : i ∈ s.timers.active := by
        rw [h.active_eq, hi]
        simp
      have hlt := h.id_lt i hmem
      simp only [List.mem_singleton]
      omega
  · intro s hr
    have h := Banner.AInv_reachable s hr
    rw [h.active_eq]
    rcases s.winnerTimeoutId with _ | i <;> simp

/-- Witness for C8: the state after one shown win (a removal timer is
pending) receives a second win. -/
theorem C8_witness :
    ((Banner.showWinner (Banner.showWinner Banner.initAdapter)).timers.active.length ≤ 1
      ∧ ∀ i : Nat, (Banner.showWinner Banner.initAdapter).winnerTimeoutId = some i →
          i ∉ (Banner.showWinner (Banner.showWinner Banner.initAdapter)).timers.active) :=
  C8_single_banner_timer.1 (Banner.showWinner Banner.initAdapter)
    (Banner.ReachableA.showStep Banner.initAdapter Banner.ReachableA.init)
